import Mathlib

/-!
Verification of the retrieval-and-reranking pipeline in `retrieve.py`
(`generate_query_variations` and `search_and_rerank`).

External effects (the Groq client, the Qdrant chunk-store client and the
cross-encoder scoring model) are modelled as oracles gathered in an `Env`
record.  Every call site that can raise in Python is an `Except Err`
value in the oracle; a call site that the Python code wraps in
`try/except` is pattern-matched and recovered exactly where the source
recovers it, and a call site outside any `try` propagates the error.
Relevance scores (floats in the source) are modelled as integers: only
their ordering matters to the code.
-/

namespace Retrieve

/-- Error values standing for Python exceptions. -/
abbrev Err := String

/-- A search hit returned by the chunk store (`client.query`).  The source
reads `hit.id` and `hit.metadata.get("content", "")` (falling back to
`hit.payload` when no `metadata` attribute exists; both shapes expose the
same `"content"` key, so one field models both).  `content = none` models a
payload with no `"content"` key. -/
structure Hit where
  id : Nat
  content : Option String
deriving Repr, DecidableEq

/-- The text of a hit: `hit.metadata.get("content", "")` yields `""` when
the key is missing. -/
def getText (h : Hit) : String := h.content.getD ""

/-- An element of the list `search_and_rerank` returns: the dict
`{"score": ..., "text": ..., "meta": ...}`.  `meta` is the hit's raw
metadata, which in this model is its optional content. -/
structure SearchResult where
  score : Int
  text : String
  meta : Option String
deriving Repr, DecidableEq

/-- Builds one result dict from a score and a hit, as done in both the
ranked loop (lines 126-135) and the fallback loop (lines 144-147). -/
def mkResult (score : Int) (h : Hit) : SearchResult :=
  { score := score, text := getText h, meta := h.content }

/-- Oracles for the external world of `retrieve.py`.
`groqInit` is the `Groq(api_key=API_KEY)` constructor call (line 30,
outside the `try`); `completion` is `client.chat.completions.create(...)`
returning the message content (the prompt is a fixed function of the user
query, so the oracle is indexed by the query itself); `qdrantInit` is
`QdrantClient(path="qdrant_db")` (line 60, outside any `try`);
`storeQuery` is `client.query(collection, q, limit)`; `encoderInit` is
`CrossEncoder(RERANKER_MODEL_NAME)` and `predict` is `model.predict`. -/
structure Env where
  apiKey : Option String
  groqInit : Except Err Unit
  completion : String → Except Err String
  qdrantInit : Except Err Unit
  storeQuery : String → Nat → Except Err (List Hit)
  encoderInit : Except Err Unit
  predict : List (String × String) → Except Err (List Int)

/-- Line 48 of the source: split the completion content on newlines,
strip each line, keep the non-empty ones. -/
def parseVariations (content : String) : List String :=
  ((content.splitOn "\n").map String.trim).filter (fun line => line ≠ "")

/-- `generate_query_variations` (lines 20-54).  With no API key it
returns `[query]` (line 28).  Otherwise the Groq client is constructed
outside the `try`, so a constructor failure propagates; inside the `try`,
a successful completion is parsed into lines, the original query is
inserted at position 0 and the list is capped at 4, while any completion
failure is recovered as `[query]` (lines 52-54). -/
def generate_query_variations (env : Env) (query : String) : Except Err (List String) :=
  match env.apiKey with
  | none => .ok [query]
  | some _ =>
    match env.groqInit with
    | .error e => .error e
    | .ok _ =>
      match env.completion query with
      | .ok content => .ok ((query :: parseVariations content).take 4)
      | .error _ => .ok [query]

/-- One per-variant store query (lines 72-80): `client.query(..., limit=25)`
inside a `try` whose handler drops the variant's contribution. -/
def variantHits (env : Env) (q : String) : List Hit :=
  match env.storeQuery q 25 with
  | .ok hits => hits
  | .error _ => []

/-- The `all_results` accumulation over the variant loop (lines 66-82). -/
def collectHits (env : Env) (queries : List String) : List Hit :=
  (queries.map (variantHits env)).flatten

/-- The deduplication loop (lines 86-92): `seen` is the key set of the
`unique_results` dict; a hit whose id was already seen is skipped, a new
id keeps its first hit, and output order is insertion order. -/
def dedupAux (seen : List Nat) : List Hit → List Hit
  | [] => []
  | h :: hs =>
    if h.id ∈ seen then dedupAux seen hs
    else h :: dedupAux (h.id :: seen) hs

/-- `candidates = list(unique_results.values())` after the dedup loop. -/
def dedupById (hits : List Hit) : List Hit := dedupAux [] hits

/-- The reranker-preparation loop (lines 100-112) restricted to `passages`:
hits whose text is empty or missing are skipped (`if not text: continue`). -/
def passagesOf (candidates : List Hit) : List Hit :=
  candidates.filter (fun h => getText h ≠ "")

/-- The `cross_encoder_inputs` built in the same loop: one
`[query_text, text]` pair per kept passage, always against the original
user query. -/
def inputsOf (queryText : String) (candidates : List Hit) : List (String × String) :=
  (passagesOf candidates).map (fun h => (queryText, getText h))

/-- One insertion step of the stable descending sort: walk past elements
whose score is strictly greater, insert before the first element whose
score is less than or equal (so an earlier-input element precedes any
equally-scored later one). -/
def insertDesc (p : Int × Hit) : List (Int × Hit) → List (Int × Hit)
  | [] => [p]
  | q :: qs => if q.1 > p.1 then q :: insertDesc p qs else p :: q :: qs

/-- `sorted(zip(scores, passages), key=lambda x: x[0], reverse=True)`
(line 122): Python's sort is stable and `reverse=True` keeps equal keys in
input order, which is exactly what this insertion sort computes. -/
def sortDesc : List (Int × Hit) → List (Int × Hit)
  | [] => []
  | p :: ps => insertDesc p (sortDesc ps)

/-- Lines 122-135: sort the (score, passage) pairs descending, keep the
top 8, and build a result dict from each kept pair. -/
def rankedTop8 (scores : List Int) (passages : List Hit) : List SearchResult :=
  ((sortDesc (scores.zip passages)).take 8).map (fun p => mkResult p.1 p.2)

/-- Lines 143-148: the rerank-failure fallback returns the first 5
deduplicated candidates with sentinel score 0. -/
def fallbackTop5 (candidates : List Hit) : List SearchResult :=
  (candidates.take 5).map (mkResult 0)

/-- The `try/except` of lines 117-148: construct the cross-encoder and
run the batched `predict`; any failure in either step degrades to the
unranked fallback instead of propagating. -/
def rerankOrFallback (env : Env) (queryText : String) (candidates : List Hit) :
    List SearchResult :=
  match env.encoderInit with
  | .error _ => fallbackTop5 candidates
  | .ok _ =>
    match env.predict (inputsOf queryText candidates) with
    | .error _ => fallbackTop5 candidates
    | .ok scores => rankedTop8 scores (passagesOf candidates)

/-- `search_and_rerank` (lines 56-148).  The Qdrant client construction
(line 60) is outside any `try`, so its failure propagates, as does a
failure of the Groq constructor inside `generate_query_variations`.
After expansion, per-variant search results are collected (failures
recovered per variant), deduplicated by id, short-circuited to `[]` when
empty, and otherwise reranked with the degraded fallback on rerank
failure. -/
def search_and_rerank (env : Env) (queryText : String) : Except Err (List SearchResult) :=
  match env.qdrantInit with
  | .error e => .error e
  | .ok _ =>
    match generate_query_variations env queryText with
    | .error e => .error e
    | .ok queries =>
      match dedupById (collectHits env queries) with
      | [] => .ok []
      | candidates => .ok (rerankOrFallback env queryText candidates)

/-! ### Deduplication lemmas -/

theorem dedupAux_subset (seen : List Nat) (l : List Hit) :
    ∀ h ∈ dedupAux seen l, h ∈ l := by
  induction l generalizing seen with
  | nil => simp [dedupAux]
  | cons a as ih =>
    intro h hm
    simp only [dedupAux] at hm
    split at hm
    · exact List.mem_cons_of_mem _ (ih seen h hm)
    · rcases List.mem_cons.mp hm with h1 | h2
      · simp [h1]
      · exact List.mem_cons_of_mem _ (ih _ h h2)

theorem dedupAux_id_not_seen (seen : List Nat) (l : List Hit) :
    ∀ h ∈ dedupAux seen l, h.id ∉ seen := by
  induction l generalizing seen with
  | nil => simp [dedupAux]
  | cons a as ih =>
    intro h hm
    simp only [dedupAux] at hm
    split at hm
    · exact ih seen h hm
    · rcases List.mem_cons.mp hm with h1 | h2
      · subst h1; assumption
      · intro hc
        exact ih _ h h2 (List.mem_cons_of_mem _ hc)

theorem dedupAux_first_occurrence (seen : List Nat) (l : List Hit) :
    ∀ h ∈ dedupAux seen l, l.find? (fun x => x.id == h.id) = some h := by
  induction l generalizing seen with
  | nil => simp [dedupAux]
  | cons a as ih =>
    intro h hm
    simp only [dedupAux] at hm
    split at hm
    · rename_i hin
      have hne : a.id ≠ h.id := by
        intro he
        exact dedupAux_id_not_seen seen as h hm (he ▸ hin)
      rw [List.find?_cons_of_neg _ (by simpa using hne)]
      exact ih seen h hm
    · rcases List.mem_cons.mp hm with h1 | h2
      · subst h1
        rw [List.find?_cons_of_pos _ (by simp)]
      · have hns : h.id ∉ a.id :: seen := dedupAux_id_not_seen _ as h h2
        have hne : a.id ≠ h.id := fun he => hns (by simp [he])
        rw [List.find?_cons_of_neg _ (by simpa using hne)]
        exact ih _ h h2

theorem dedupAux_nodup_ids (seen : List Nat) (l : List Hit) :
    ((dedupAux seen l).map Hit.id).Nodup := by
  induction l generalizing seen with
  | nil => simp [dedupAux]
  | cons a as ih =>
    simp only [dedupAux]
    split
    · exact ih seen
    · simp only [List.map_cons, List.nodup_cons]
      refine ⟨?_, ih _⟩
      intro hc
      rcases List.mem_map.mp hc with ⟨h, hm, hid⟩
      exact dedupAux_id_not_seen _ as h hm (by simp [hid])

theorem dedupAux_count (seen : List Nat) (l : List Hit) (x : Nat) :
    ((dedupAux seen l).filter (fun h => h.id == x)).length =
      if x ∉ seen ∧ x ∈ l.map Hit.id then 1 else 0 := by
  induction l generalizing seen with
  | nil => simp [dedupAux]
  | cons a as ih =>
    simp only [dedupAux]
    split
    · rename_i hin
      rw [ih seen]
      have hiff : (x ∉ seen ∧ x ∈ as.map Hit.id) ↔ (x ∉ seen ∧ x ∈ (a :: as).map Hit.id) := by
        simp only [List.map_cons, List.mem_cons]
        constructor
        · rintro ⟨hns, hm⟩
          exact ⟨hns, Or.inr hm⟩
        · rintro ⟨hns, hm | hm⟩
          · subst hm
            exact absurd hin hns
          · exact ⟨hns, hm⟩
      rw [if_congr hiff rfl rfl]
    · rename_i hnin
      by_cases hx : x = a.id
      · subst hx
        rw [List.filter_cons_of_pos (by simp)]
        simp only [List.length_cons]
        have hz : ((dedupAux (a.id :: seen) as).filter (fun h => h.id == a.id)).length = 0 := by
          rw [List.length_eq_zero, List.filter_eq_nil_iff]
          intro h hm
          have := dedupAux_id_not_seen (a.id :: seen) as h hm
          simp only [List.mem_cons, not_or] at this
          simpa using this.1
        rw [hz]
        simp [hnin]
      · rw [List.filter_cons_of_neg (by simpa using fun he => hx he.symm)]
        rw [ih (a.id :: seen)]
        have hiff : (x ∉ a.id :: seen ∧ x ∈ as.map Hit.id) ↔
            (x ∉ seen ∧ x ∈ (a :: as).map Hit.id) := by
          simp only [List.mem_cons, not_or, List.map_cons]
          constructor
          · rintro ⟨⟨_, hns⟩, hm⟩
            exact ⟨hns, Or.inr hm⟩
          · rintro ⟨hns, hm | hm⟩
            · exact absurd hm hx
            · exact ⟨⟨hx, hns⟩, hm⟩
        rw [if_congr hiff rfl rfl]

/-! ### Stable descending sort lemmas -/

theorem insertDesc_perm (p : Int × Hit) (l : List (Int × Hit)) :
    List.Perm (insertDesc p l) (p :: l) := by
  induction l with
  | nil => rfl
  | cons q qs ih =>
    simp only [insertDesc]
    split
    · exact (ih.cons q).trans (List.Perm.swap _ _ _)
    · rfl

theorem sortDesc_perm (l : List (Int × Hit)) : List.Perm (sortDesc l) l := by
  induction l with
  | nil => rfl
  | cons p ps ih =>
    simp only [sortDesc]
    exact (insertDesc_perm p (sortDesc ps)).trans (ih.cons p)

theorem insertDesc_pairwise (p : Int × Hit) (l : List (Int × Hit))
    (hl : l.Pairwise (fun a b => b.1 ≤ a.1)) :
    (insertDesc p l).Pairwise (fun a b => b.1 ≤ a.1) := by
  induction l with
  | nil => simp [insertDesc]
  | cons q qs ih =>
    simp only [insertDesc]
    rcases List.pairwise_cons.mp hl with ⟨hq, hqs⟩
    split
    · rename_i hgt
      refine List.pairwise_cons.mpr ⟨?_, ih hqs⟩
      intro x hx
      have hx' := (insertDesc_perm p qs).mem_iff.mp hx
      rcases List.mem_cons.mp hx' with rfl | hx'
      · exact le_of_lt hgt
      · exact hq x hx'
    · rename_i hle
      refine List.pairwise_cons.mpr ⟨?_, hl⟩
      intro x hx
      rcases List.mem_cons.mp hx with hx | hx
      · subst hx
        exact le_of_not_lt hle
      · exact le_trans (hq x hx) (le_of_not_lt hle)

theorem sortDesc_pairwise (l : List (Int × Hit)) :
    (sortDesc l).Pairwise (fun a b => b.1 ≤ a.1) := by
  induction l with
  | nil => simp [sortDesc]
  | cons p ps ih => exact insertDesc_pairwise p (sortDesc ps) ih

theorem insertDesc_filter_score (p : Int × Hit) (l : List (Int × Hit)) (s : Int) :
    (insertDesc p l).filter (fun x => x.1 == s) =
      if p.1 = s then p :: l.filter (fun x => x.1 == s)
      else l.filter (fun x => x.1 == s) := by
  induction l with
  | nil =>
    simp only [insertDesc]
    by_cases hp : p.1 = s
    · rw [List.filter_cons_of_pos (by simpa using hp)]
      simp [hp]
    · rw [List.filter_cons_of_neg (by simpa using hp)]
      simp [hp]
  | cons q qs ih =>
    simp only [insertDesc]
    split
    · rename_i hgt
      by_cases hq : q.1 = s
      · rw [List.filter_cons_of_pos (by simpa using hq), ih,
          List.filter_cons_of_pos (by simpa using hq)]
        have hp : ¬ p.1 = s := by
          intro hp
          rw [hp, hq] at hgt
          exact lt_irrefl s hgt
        simp [hp]
      · rw [List.filter_cons_of_neg (by simpa using hq), ih,
          List.filter_cons_of_neg (by simpa using hq)]
    · by_cases hp : p.1 = s
      · rw [List.filter_cons_of_pos (by simpa using hp)]
        simp [hp]
      · rw [List.filter_cons_of_neg (by simpa using hp)]
        simp [hp]

theorem sortDesc_filter_score (l : List (Int × Hit)) (s : Int) :
    (sortDesc l).filter (fun x => x.1 == s) = l.filter (fun x => x.1 == s) := by
  induction l with
  | nil => rfl
  | cons p ps ih =>
    simp only [sortDesc, insertDesc_filter_score]
    by_cases hp : p.1 = s
    · rw [if_pos hp, ih, List.filter_cons_of_pos (by simpa using hp)]
    · rw [if_neg hp, ih, List.filter_cons_of_neg (by simpa using hp)]

/-! ### Pipeline shape lemmas -/

/-- Unfolds a successful pipeline run: when the store client constructs and
expansion returns `qs`, the result is the empty list or the rerank stage's
output on the deduplicated candidates. -/
theorem search_and_rerank_eq (env : Env) (q : String) (qs : List String)
    (h1 : env.qdrantInit = .ok ()) (h2 : generate_query_variations env q = .ok qs) :
    search_and_rerank env q =
      .ok (if dedupById (collectHits env qs) = [] then []
           else rerankOrFallback env q (dedupById (collectHits env qs))) := by
  unfold search_and_rerank
  rw [h1, h2]
  simp only
  cases hd : dedupById (collectHits env qs) with
  | nil => simp
  | cons a as => simp

/-- Inversion of a successful pipeline run: expansion must have succeeded,
and the result is either the empty short-circuit or the rerank stage's
output on a non-empty deduplicated candidate list. -/
theorem search_ok_inv (env : Env) (q : String) (rs : List SearchResult)
    (h : search_and_rerank env q = .ok rs) :
    ∃ qs, generate_query_variations env q = .ok qs ∧
      ((dedupById (collectHits env qs) = [] ∧ rs = []) ∨
       (dedupById (collectHits env qs) ≠ [] ∧
        rs = rerankOrFallback env q (dedupById (collectHits env qs)))) := by
  unfold search_and_rerank at h
  cases hq : env.qdrantInit with
  | error e => rw [hq] at h; exact absurd h (by simp)
  | ok u =>
    rw [hq] at h
    simp only at h
    cases hg : generate_query_variations env q with
    | error e => rw [hg] at h; exact absurd h (by simp)
    | ok qs =>
      rw [hg] at h
      simp only at h
      refine ⟨qs, rfl, ?_⟩
      cases hd : dedupById (collectHits env qs) with
      | nil =>
        rw [hd] at h
        left
        refine ⟨rfl, ?_⟩
        cases h
        rfl
      | cons a as =>
        rw [hd] at h
        right
        refine ⟨by simp, ?_⟩
        cases h
        rfl

/-- The rerank stage either degrades to the fallback or returns the ranked
list built from a successful batched scoring call. -/
theorem rerankOrFallback_shape (env : Env) (q : String) (cs : List Hit) :
    rerankOrFallback env q cs = fallbackTop5 cs ∨
    ∃ scores, env.encoderInit = .ok () ∧ env.predict (inputsOf q cs) = .ok scores ∧
      rerankOrFallback env q cs = rankedTop8 scores (passagesOf cs) := by
  unfold rerankOrFallback
  cases he : env.encoderInit with
  | error e => exact Or.inl rfl
  | ok u =>
    cases u
    cases hp : env.predict (inputsOf q cs) with
    | error e => exact Or.inl rfl
    | ok scores => exact Or.inr ⟨scores, rfl, rfl, rfl⟩

/-- When the cross-encoder constructs and the batched call succeeds, the
rerank stage returns the ranked list. -/
theorem rerankOrFallback_ranked (env : Env) (q : String) (cs : List Hit)
    (scores : List Int) (he : env.encoderInit = .ok ())
    (hp : env.predict (inputsOf q cs) = .ok scores) :
    rerankOrFallback env q cs = rankedTop8 scores (passagesOf cs) := by
  unfold rerankOrFallback
  rw [he, hp]

/-- When the cross-encoder fails to construct, or constructs but the
batched call raises, the rerank stage degrades to the fallback. -/
theorem rerankOrFallback_fallback (env : Env) (q : String) (cs : List Hit)
    (h : (∃ e, env.encoderInit = .error e) ∨
         (env.encoderInit = .ok () ∧ ∃ e, env.predict (inputsOf q cs) = .error e)) :
    rerankOrFallback env q cs = fallbackTop5 cs := by
  unfold rerankOrFallback
  rcases h with ⟨e, he⟩ | ⟨he, e, hp⟩
  · rw [he]
  · rw [he, hp]

/-- Any successful pipeline result is empty, a fallback list, or a ranked
list over some candidate set. -/
theorem search_ok_shape (env : Env) (q : String) (rs : List SearchResult)
    (h : search_and_rerank env q = .ok rs) :
    rs = [] ∨ (∃ cs : List Hit, rs = fallbackTop5 cs) ∨
      (∃ (scores : List Int) (passages : List Hit), rs = rankedTop8 scores passages) := by
  rcases search_ok_inv env q rs h with ⟨qs, _, ⟨_, rfl⟩ | ⟨_, hrs⟩⟩
  · exact Or.inl rfl
  · rcases rerankOrFallback_shape env q (dedupById (collectHits env qs)) with
      hf | ⟨scores, _, _, hf⟩
    · exact Or.inr (Or.inl ⟨_, hrs.trans hf⟩)
    · exact Or.inr (Or.inr ⟨scores, _, hrs.trans hf⟩)

/-! ### Result-list invariants -/

theorem fallbackTop5_length (cs : List Hit) : (fallbackTop5 cs).length ≤ 5 := by
  simp only [fallbackTop5, List.length_map]
  exact List.length_take_le 5 cs

theorem fallbackTop5_scores (cs : List Hit) :
    ∀ r ∈ fallbackTop5 cs, r.score = 0 := by
  intro r hr
  rcases List.mem_map.mp hr with ⟨h, _, rfl⟩
  rfl

theorem sorted_of_all_zero (rs : List SearchResult) (h : ∀ r ∈ rs, r.score = 0) :
    List.Sorted (· ≥ ·) (rs.map SearchResult.score) := by
  induction rs with
  | nil => simp
  | cons a as ih =>
    simp only [List.map_cons, List.sorted_cons]
    constructor
    · intro b hb
      rcases List.mem_map.mp hb with ⟨r, hr, rfl⟩
      rw [h a (List.mem_cons_self a as), h r (List.mem_cons_of_mem _ hr)]
    · exact ih (fun r hr => h r (List.mem_cons_of_mem _ hr))

theorem rankedTop8_length (scores : List Int) (passages : List Hit) :
    (rankedTop8 scores passages).length ≤ 8 := by
  simp only [rankedTop8, List.length_map]
  exact List.length_take_le 8 _

theorem rankedTop8_sorted (scores : List Int) (passages : List Hit) :
    List.Sorted (· ≥ ·) ((rankedTop8 scores passages).map SearchResult.score) := by
  simp only [rankedTop8, List.map_map]
  have hpw : ((sortDesc (scores.zip passages)).take 8).Pairwise (fun a b => b.1 ≤ a.1) :=
    (sortDesc_pairwise _).sublist (List.take_sublist 8 _)
  rw [List.Sorted]
  rw [List.pairwise_map]
  exact hpw.imp (fun hab => hab)

/-- Every dropped element of the sorted list scores no higher than every
kept element of the top-8 truncation. -/
theorem sortDesc_take_drop (l : List (Int × Hit)) :
    ∀ x ∈ (sortDesc l).take 8, ∀ y ∈ (sortDesc l).drop 8, y.1 ≤ x.1 := by
  have h := sortDesc_pairwise l
  rw [← List.take_append_drop 8 (sortDesc l)] at h
  rcases List.pairwise_append.mp h with ⟨_, _, hcross⟩
  exact hcross

/-- A variant whose store call fails (or returns nothing) contributes no
candidates, and conversely. -/
theorem variantHits_eq_nil_iff (env : Env) (q : String) :
    variantHits env q = [] ↔
      env.storeQuery q 25 = .ok [] ∨ ∃ e, env.storeQuery q 25 = .error e := by
  unfold variantHits
  cases hs : env.storeQuery q 25 with
  | ok hits =>
    simp only
    constructor
    · intro hn
      exact Or.inl (by rw [hn])
    · rintro (hh | ⟨e, hh⟩)
      · cases hh
        rfl
      · cases hh
  | error e =>
    simp only
    constructor
    · intro _
      exact Or.inr ⟨e, rfl⟩
    · intro _
      trivial

/-- Expansion returns some list whenever the credential is absent or the
Groq client constructs. -/
theorem generate_ok (env : Env) (q : String)
    (h : env.apiKey = none ∨ env.groqInit = .ok ()) :
    ∃ qs, generate_query_variations env q = .ok qs := by
  unfold generate_query_variations
  cases ha : env.apiKey with
  | none => exact ⟨[q], rfl⟩
  | some k =>
    have hg : env.groqInit = .ok () := by
      rcases h with h | h
      · rw [ha] at h
        cases h
      · exact h
    rw [hg]
    cases hc : env.completion q with
    | ok content => exact ⟨(q :: parseVariations content).take 4, rfl⟩
    | error e => exact ⟨[q], rfl⟩

/-- Passages fed to the cross-encoder always carry non-empty text. -/
theorem passagesOf_text_ne (cs : List Hit) :
    ∀ h ∈ passagesOf cs, getText h ≠ "" := by
  intro h hm
  have := List.mem_filter.mp hm
  simpa using this.2

/-- Ranked results built over the filtered passages have non-empty text. -/
theorem rankedTop8_text_ne (scores : List Int) (cs : List Hit) :
    ∀ r ∈ rankedTop8 scores (passagesOf cs), r.text ≠ "" := by
  intro r hr
  rcases List.mem_map.mp hr with ⟨p, hp, rfl⟩
  have hp1 : p ∈ sortDesc (scores.zip (passagesOf cs)) :=
    (List.take_sublist 8 _).subset hp
  have hp2 : p ∈ scores.zip (passagesOf cs) :=
    (sortDesc_perm _).mem_iff.mp hp1
  have hp3 : p.2 ∈ passagesOf cs := by
    rcases p with ⟨s, h⟩
    exact (List.of_mem_zip hp2).2
  exact passagesOf_text_ne cs p.2 hp3

/-! ### Concrete environments used as witnesses and counterexamples -/

/-- A store hit with id 1 and non-empty content. -/
def hitA : Hit := ⟨1, some "alpha passage"⟩

/-- A store hit with id 2 and non-empty content. -/
def hitB : Hit := ⟨2, some "beta passage"⟩

/-- A store hit with id 3 whose payload has no content key. -/
def hitC : Hit := ⟨3, none⟩

/-- A second hit sharing id 1 with `hitA` but different content. -/
def hitA2 : Hit := ⟨1, some "later duplicate"⟩

/-- A healthy environment: no API key (expansion skipped), a two-hit
store, a working cross-encoder scoring every pair 1. -/
def envBase : Env :=
  { apiKey := none
    groqInit := .ok ()
    completion := fun _ => .error "offline"
    qdrantInit := .ok ()
    storeQuery := fun _ _ => .ok [hitA, hitB]
    encoderInit := .ok ()
    predict := fun inputs => .ok (inputs.map (fun _ => 1)) }

/-- `envBase` with a Qdrant client whose local database cannot be opened. -/
def envQdrantDown : Env := { envBase with qdrantInit := .error "qdrant db locked" }

/-- `envBase` with a credential present and a failing completion call. -/
def envExpansionFail : Env :=
  { envBase with apiKey := some "key", completion := fun _ => .error "quota exceeded" }

/-- `envBase` with a cross-encoder that fails to load. -/
def envRerankDown : Env := { envBase with encoderInit := .error "model load failed" }

/-- A store returning only a content-less hit, and a failing cross-encoder. -/
def envRerankDownEmptyText : Env :=
  { envBase with
    storeQuery := fun _ _ => .ok [hitC]
    encoderInit := .error "model load failed" }

/-- A store that fails on the query `"bad"` and answers otherwise. -/
def envMixed : Env :=
  { envBase with
    storeQuery := fun q _ => if q = "bad" then .error "store timeout" else .ok [hitA] }

/-- An empty store combined with a broken reranking stage. -/
def envEmptyStore : Env :=
  { envBase with
    storeQuery := fun _ _ => .ok []
    encoderInit := .error "no model"
    predict := fun _ => .error "no model" }

/-- A list retrieving id 1 twice (from different variants) around id 2. -/
def dupList : List Hit := [hitA, hitB, hitA2]

/-! ### Claim theorems -/

/-- C1 (counterexample): the claim that no exception ever escapes
`search_and_rerank` is false on the code: the `QdrantClient(path=...)`
construction at line 60 sits outside every `try`, so a chunk-store client
whose local database cannot be opened makes the call raise — here the
pipeline returns the propagated error instead of any result list. -/
theorem C1_counterexample :
    search_and_rerank envQdrantDown "query" = .error "qdrant db locked" := rfl

/-- C1 (amended): provided the two client constructions outside any
`try` succeed — the Qdrant store client (line 60) and, when a credential
is present, the Groq client (line 30) — `search_and_rerank` always
returns a (possibly empty) result list: failures of the expansion
completion call, of any per-variant store query, and of the reranking
model are all recovered inside the pipeline. -/
theorem C1_no_escape_amended (env : Env) (q : String)
    (h1 : env.qdrantInit = .ok ())
    (h2 : env.apiKey = none ∨ env.groqInit = .ok ()) :
    ∃ rs : List SearchResult, search_and_rerank env q = .ok rs := by
  rcases generate_ok env q h2 with ⟨qs, hg⟩
  rw [search_and_rerank_eq env q qs h1 hg]
  exact ⟨_, rfl⟩

/-- C1 witness: the amended theorem applied to the healthy environment. -/
theorem C1_witness :
    ∃ rs : List SearchResult, search_and_rerank envBase "q" = .ok rs :=
  C1_no_escape_amended envBase "q" rfl (Or.inl rfl)

/-- C2 (confirmed): every list a successful `search_and_rerank` call
returns has length at most 8 and relevance scores non-increasing by rank
(which subsumes the spec's degraded disjunct, where all scores are 0). -/
theorem C2_length_sorted (env : Env) (q : String) (rs : List SearchResult)
    (h : search_and_rerank env q = .ok rs) :
    rs.length ≤ 8 ∧ List.Sorted (· ≥ ·) (rs.map SearchResult.score) := by
  rcases search_ok_shape env q rs h with rfl | ⟨cs, rfl⟩ | ⟨scores, passages, rfl⟩
  · simp
  · exact ⟨le_trans (fallbackTop5_length cs) (by norm_num),
      sorted_of_all_zero _ (fallbackTop5_scores cs)⟩
  · exact ⟨rankedTop8_length scores passages, rankedTop8_sorted scores passages⟩

/-- C2 witness: the invariant evaluated on the healthy environment's
concrete two-element result. -/
theorem C2_witness :
    ([⟨1, "alpha passage", some "alpha passage"⟩,
      ⟨1, "beta passage", some "beta passage"⟩] : List SearchResult).length ≤ 8 ∧
    List.Sorted (· ≥ ·)
      (([⟨1, "alpha passage", some "alpha passage"⟩,
         ⟨1, "beta passage", some "beta passage"⟩] : List SearchResult).map
        SearchResult.score) :=
  C2_length_sorted envBase "q" _ rfl

/-- C3 (confirmed): when no credential is configured, or when the client
constructs but the generative completion call fails, expansion returns
exactly the singleton `[query]` rather than an error. -/
theorem C3_expansion_recovered (env : Env) (q : String)
    (h : env.apiKey = none ∨
         (env.groqInit = .ok () ∧ ∃ e, env.completion q = .error e)) :
    generate_query_variations env q = .ok [q] := by
  unfold generate_query_variations
  cases ha : env.apiKey with
  | none => rfl
  | some k =>
    rcases h with h | ⟨hg, e, hc⟩
    · rw [ha] at h
      cases h
    · rw [hg, hc]

/-- C3 witness: expansion with a present credential and a quota-failing
completion call still returns the singleton. -/
theorem C3_witness :
    generate_query_variations envExpansionFail "q" = .ok ["q"] :=
  C3_expansion_recovered envExpansionFail "q" (Or.inr ⟨rfl, "quota exceeded", rfl⟩)

/-- C4 (counterexample): the claim that no returned result, on any path,
has empty text is false: the filtering happens after deduplication but
only feeds the ranked path, while the rerank-failure fallback (lines
143-148) draws from the unfiltered candidate list.  With a store hit
lacking content and a failing cross-encoder, the pipeline returns a
result whose text is the empty string. -/
theorem C4_counterexample :
    search_and_rerank envRerankDownEmptyText "q" =
      .ok [{ score := 0, text := "", meta := none }] ∧
    ({ score := 0, text := "", meta := none } : SearchResult).text = "" :=
  ⟨rfl, rfl⟩

/-- C4 (amended): candidates with empty or missing text never reach the
reranker — every cross-encoder input pair carries non-empty text — and on
the ranked path (cross-encoder loaded, batched scoring succeeding) no
returned result has empty text.  The degraded fallback path, which the
counterexample exhibits, is excluded from the amended claim. -/
theorem C4_prefilter_amended :
    (∀ (q : String) (cs : List Hit), ∀ p ∈ inputsOf q cs, p.2 ≠ "") ∧
    (∀ (env : Env) (q : String) (rs : List SearchResult),
      env.encoderInit = .ok () →
      (∀ inp, ∃ s, env.predict inp = .ok s) →
      search_and_rerank env q = .ok rs →
      ∀ r ∈ rs, r.text ≠ "") := by
  constructor
  · intro q cs p hp
    rcases List.mem_map.mp hp with ⟨h, hm, rfl⟩
    exact passagesOf_text_ne cs h hm
  · intro env q rs he hpred h r hr
    rcases search_ok_inv env q rs h with ⟨qs, _, ⟨_, rfl⟩ | ⟨_, hrs⟩⟩
    · cases hr
    · rcases hpred (inputsOf q (dedupById (collectHits env qs))) with ⟨scores, hps⟩
      rw [hrs, rerankOrFallback_ranked env q _ scores he hps] at hr
      exact rankedTop8_text_ne scores _ r hr

/-- C4 witness: the amended theorem evaluated on the healthy environment,
whose two returned results both carry non-empty text. -/
theorem C4_witness :
    ∀ r ∈ ([⟨1, "alpha passage", some "alpha passage"⟩,
            ⟨1, "beta passage", some "beta passage"⟩] : List SearchResult),
      r.text ≠ "" :=
  C4_prefilter_amended.2 envBase "q" _ rfl
    (fun inp => ⟨inp.map (fun _ => 1), rfl⟩) rfl

/-- C5 (confirmed): deduplication keyed by chunk id keeps exactly the
first-seen hit for each id: the output has pairwise-distinct ids, every
kept hit is the first element of the input bearing its id (so later
duplicates are discarded without comparison), and each id retrieved at
least once — for example by several variants — has exactly one entry in
the deduplicated output. -/
theorem C5_dedup_first_wins (l : List Hit) :
    ((dedupById l).map Hit.id).Nodup ∧
    (∀ h ∈ dedupById l, l.find? (fun x => x.id == h.id) = some h) ∧
    (∀ x : Nat, ((dedupById l).filter (fun h => h.id == x)).length =
      if x ∈ l.map Hit.id then 1 else 0) := by
  refine ⟨dedupAux_nodup_ids [] l, dedupAux_first_occurrence [] l, ?_⟩
  intro x
  rw [dedupById, dedupAux_count]
  simp

/-- C5 witness: on a list retrieving id 1 twice with different payloads,
the kept entry for id 1 is the first occurrence and id 1 appears exactly
once in the deduplicated output. -/
theorem C5_witness :
    List.find? (fun x => x.id == hitA.id) dupList = some hitA ∧
    ((dedupById dupList).filter (fun h => h.id == 1)).length = 1 := by
  constructor
  · exact (C5_dedup_first_wins dupList).2.1 hitA (by decide)
  · rw [(C5_dedup_first_wins dupList).2.2 1]
    decide

/-- C6 (confirmed): when the deduplicated candidates are non-empty and
the cross-encoder fails to load — or loads but the batched scoring call
raises — `search_and_rerank` returns the first (at most) 5 candidates in
the deduplicator's order, each with sentinel score 0, instead of
propagating the failure or returning nothing. -/
theorem C6_rerank_degrades (env : Env) (q : String) (qs : List String)
    (cs : List Hit)
    (h1 : env.qdrantInit = .ok ())
    (h2 : generate_query_variations env q = .ok qs)
    (h3 : dedupById (collectHits env qs) = cs)
    (h4 : cs ≠ [])
    (h5 : (∃ e, env.encoderInit = .error e) ∨
          (env.encoderInit = .ok () ∧ ∃ e, env.predict (inputsOf q cs) = .error e)) :
    search_and_rerank env q = .ok ((cs.take 5).map (mkResult 0)) ∧
    ((cs.take 5).map (mkResult 0)).length ≤ 5 ∧
    (∀ r ∈ (cs.take 5).map (mkResult 0), r.score = 0) ∧
    (cs ≠ [] → (cs.take 5).map (mkResult 0) ≠ []) := by
  refine ⟨?_, fallbackTop5_length cs, fallbackTop5_scores cs, ?_⟩
  · rw [search_and_rerank_eq env q qs h1 h2, h3, if_neg h4,
      rerankOrFallback_fallback env q cs h5]
    rfl
  · intro hne
    cases cs with
    | nil => exact absurd rfl hne
    | cons a as => simp [mkResult]

/-- C6 witness: the degraded path evaluated with a failing cross-encoder
over the healthy two-hit store. -/
theorem C6_witness :
    search_and_rerank envRerankDown "q" =
      .ok (([hitA, hitB].take 5).map (mkResult 0)) ∧
    (([hitA, hitB].take 5).map (mkResult 0)).length ≤ 5 ∧
    (∀ r ∈ ([hitA, hitB].take 5).map (mkResult 0), r.score = 0) ∧
    ([hitA, hitB] ≠ [] → ([hitA, hitB].take 5).map (mkResult 0) ≠ []) :=
  C6_rerank_degrades envRerankDown "q" ["q"] [hitA, hitB] rfl rfl rfl
    (by decide) (Or.inl ⟨"model load failed", rfl⟩)

/-- C7 (confirmed): retrieval issues one capped store query per variant
(cap 25); a failing variant contributes zero candidates while the other
variants' contributions are unchanged, and the combined candidate list is
empty exactly when every variant's query fails or returns nothing. -/
theorem C7_per_variant_recovery (env : Env) :
    (∀ (q : String) (e : Err), env.storeQuery q 25 = .error e → variantHits env q = []) ∧
    (∀ (qs1 : List String) (q : String) (qs2 : List String),
      collectHits env (qs1 ++ q :: qs2) =
        collectHits env qs1 ++ variantHits env q ++ collectHits env qs2) ∧
    (∀ qs : List String, collectHits env qs = [] ↔
      ∀ q ∈ qs, env.storeQuery q 25 = .ok [] ∨ ∃ e, env.storeQuery q 25 = .error e) := by
  refine ⟨?_, ?_, ?_⟩
  · intro q e he
    unfold variantHits
    rw [he]
  · intro qs1 q qs2
    simp [collectHits, List.append_assoc]
  · intro qs
    rw [collectHits, List.flatten_eq_nil_iff]
    constructor
    · intro hall q hq
      exact (variantHits_eq_nil_iff env q).mp (hall _ (List.mem_map_of_mem _ hq))
    · intro hall l hl
      rcases List.mem_map.mp hl with ⟨q, hq, rfl⟩
      exact (variantHits_eq_nil_iff env q).mpr (hall q hq)

/-- C7 witness: with a store that times out on the variant `"bad"`, that
variant contributes nothing, a surrounding good variant still
contributes, and the two-variant collection is non-empty. -/
theorem C7_witness :
    variantHits envMixed "bad" = [] ∧
    collectHits envMixed (["good"] ++ "bad" :: []) =
      collectHits envMixed ["good"] ++ variantHits envMixed "bad" ++
        collectHits envMixed [] ∧
    collectHits envMixed ["bad"] = [] := by
  refine ⟨(C7_per_variant_recovery envMixed).1 "bad" "store timeout" rfl,
    (C7_per_variant_recovery envMixed).2.1 ["good"] "bad" [], ?_⟩
  refine ((C7_per_variant_recovery envMixed).2.2 ["bad"]).mpr ?_
  intro q hq
  have hqe : q = "bad" := by simpa using hq
  subst hqe
  exact Or.inr ⟨"store timeout", rfl⟩

/-- C8 (confirmed): the reranker's sort is a permutation of its input,
descending in score, stable (the subsequence of pairs carrying any given
score is exactly that of the input, so ties retain input order), every
element dropped by the top-8 truncation scores no higher than every kept
one, and the ranked pipeline output is the sorted list truncated to 8
with one result dict per kept pair. -/
theorem C8_stable_sort_top8 :
    (∀ l : List (Int × Hit), List.Perm (sortDesc l) l) ∧
    (∀ l : List (Int × Hit), (sortDesc l).Pairwise (fun a b => b.1 ≤ a.1)) ∧
    (∀ (l : List (Int × Hit)) (s : Int),
      (sortDesc l).filter (fun x => x.1 == s) = l.filter (fun x => x.1 == s)) ∧
    (∀ l : List (Int × Hit),
      ∀ x ∈ (sortDesc l).take 8, ∀ y ∈ (sortDesc l).drop 8, y.1 ≤ x.1) ∧
    (∀ (scores : List Int) (passages : List Hit),
      rankedTop8 scores passages =
        ((sortDesc (scores.zip passages)).take 8).map (fun p => mkResult p.1 p.2)) :=
  ⟨sortDesc_perm, sortDesc_pairwise, sortDesc_filter_score, sortDesc_take_drop,
    fun _ _ => rfl⟩

/-- C8 witness: the sort evaluated on a three-pair list with a tie on
score 1: the tie retains input order and the list is a permutation. -/
theorem C8_witness :
    List.Perm (sortDesc [(1, hitA), (2, hitB), (1, hitC)])
      [(1, hitA), (2, hitB), (1, hitC)] ∧
    (sortDesc [(1, hitA), (2, hitB), (1, hitC)]).filter (fun x => x.1 == 1) =
      [(1, hitA), (2, hitB), (1, hitC)].filter (fun x => x.1 == 1) :=
  ⟨C8_stable_sort_top8.1 [(1, hitA), (2, hitB), (1, hitC)],
    C8_stable_sort_top8.2.2.1 [(1, hitA), (2, hitB), (1, hitC)] 1⟩

/-- C9 (confirmed): whenever expansion returns a list, that list is
non-empty, carries the original query at position 0 regardless of the
model output, and has between 1 and 4 elements. -/
theorem C9_variant_invariants (env : Env) (q : String) (vs : List String)
    (h : generate_query_variations env q = .ok vs) :
    vs ≠ [] ∧ vs.head? = some q ∧ 1 ≤ vs.length ∧ vs.length ≤ 4 := by
  unfold generate_query_variations at h
  cases ha : env.apiKey with
  | none =>
    rw [ha] at h
    simp only at h
    cases h
    exact ⟨by simp, rfl, by simp, by simp⟩
  | some k =>
    rw [ha] at h
    simp only at h
    cases hg : env.groqInit with
    | error e =>
      rw [hg] at h
      exact absurd h (by simp)
    | ok u =>
      rw [hg] at h
      simp only at h
      cases hc : env.completion q with
      | ok content =>
        rw [hc] at h
        simp only at h
        have hv : vs = q :: (parseVariations content).take 3 := by
          cases h
          rfl
        subst hv
        refine ⟨by simp, rfl, by simp, ?_⟩
        have ht : ((parseVariations content).take 3).length ≤ 3 :=
          List.length_take_le 3 _
        simp only [List.length_cons]
        omega
      | error e =>
        rw [hc] at h
        simp only at h
        cases h
        exact ⟨by simp, rfl, by simp, by simp⟩

/-- C9 witness: the invariants evaluated on the no-credential singleton. -/
theorem C9_witness :
    (["q"] : List String) ≠ [] ∧ (["q"] : List String).head? = some "q" ∧
    1 ≤ (["q"] : List String).length ∧ (["q"] : List String).length ≤ 4 :=
  C9_variant_invariants envBase "q" ["q"] rfl

/-- C10 (confirmed): when the deduplicator's output is empty the pipeline
returns the empty list with no error — for every environment, in
particular ones whose cross-encoder and scoring oracles fail arbitrarily,
so the reranker is never consulted on this path. -/
theorem C10_empty_short_circuit (env : Env) (q : String) (qs : List String)
    (h1 : env.qdrantInit = .ok ())
    (h2 : generate_query_variations env q = .ok qs)
    (h3 : dedupById (collectHits env qs) = []) :
    search_and_rerank env q = .ok [] := by
  rw [search_and_rerank_eq env q qs h1 h2, h3]
  simp

/-- C10 witness: the empty store with a broken reranking stage still
yields the empty result without an exception. -/
theorem C10_witness : search_and_rerank envEmptyStore "anything" = .ok [] :=
  C10_empty_short_circuit envEmptyStore "anything" ["anything"] rfl rfl rfl

end Retrieve
